import Mathlib

/-!
# QuickQuery: query execution and result normalization (`app.go`)

A shallow embedding of `MssqlQuery`, `PostgresQuery` and `PostgresGetDatabases`.

* Go `string` values are byte sequences (`GoString`); `string(b)` and `[]byte(s)` copy bytes.
* The `database/sql` package and the drivers are the environment: a `World` says what
  `sql.Open` returns, a `DB` what establishing the connection gives when the handle is first
  used, a `Conn` what running a statement gives, a `Rows` cursor what `Columns`, the
  `Next`/`Scan` iterations and `Err` return.
* Every operation returns its Go result together with the trace of the calls it made on the
  environment (`sql.Open`, connecting, sending the statement, `rows.Close`, `db.Close`), so
  that `defer` and the order of side effects are explicit.
* The driver `lib/pq` reads the database of a session from the connection string; its reader
  of key-value connection strings is part of the environment (`pqParseOpts`).
-/

namespace QuickQuery

/-! ## Go values -/

/-- A Go `string`: an immutable sequence of bytes (not necessarily valid UTF-8). -/
structure GoString where
  bytes : List UInt8
deriving DecidableEq, Repr

/-- A Go string literal of the source text, UTF-8 encoded. -/
def GoString.lit (s : String) : GoString := ⟨s.toList.flatMap String.utf8EncodeChar⟩

instance : Append GoString := ⟨fun a b => ⟨a.bytes ++ b.bytes⟩⟩

/-- Go conversion `string(b)` of a byte slice: the string holds a copy of the bytes. -/
def stringOfBytes (b : List UInt8) : GoString := ⟨b⟩

/-- Go conversion `[]byte(s)` of a string: a copy of the bytes of the string. -/
def bytesOfString (s : GoString) : List UInt8 := s.bytes

/-- What tells the Go `error` values of `database/sql` and of the drivers apart besides their
message, their dynamic type and code, reduced to the step that reports the error: establishing
the connection (network and authentication errors), running the statement on the server, or
anything else (rejected arguments, a row that does not decode, a broken cursor). -/
inductive ErrorKind where
  | connection
  | statement
  | other
deriving DecidableEq, Repr

/-- A Go `error` value: its kind and its message, the diagnostic text of the backend. -/
structure GoError where
  kind : ErrorKind
  msg : GoString
deriving DecidableEq, Repr

deriving instance DecidableEq for Except

/-- What an `interface{}` cell filled by `rows.Scan` can hold: the `driver.Value` kinds
(`nil`, `int64`, `float64` by its bit pattern, `bool`, `[]byte`, `string`, `time.Time` by its
instant) and any other driver specific value. -/
inductive Value where
  | nil
  | int64 (n : Int)
  | float64 (bits : Nat)
  | bool (b : Bool)
  | bytes (b : List UInt8)
  | string (s : GoString)
  | time (unixNano : Int)
  | other (tag : Nat)
deriving DecidableEq, Repr

/-! ## `map[string]interface{}` -/

/-- A Go `map[string]interface{}`: at most one entry per key, kept in order of first
insertion. -/
abbrev GoMap := List (GoString × Value)

/-- The assignment `m[k] = v`: overwrites the entry of `k` when there is one, adds one
otherwise. -/
def GoMap.set : GoMap → GoString → Value → GoMap
  | [], k, v => [(k, v)]
  | (k', v') :: m, k, v => if k' = k then (k, v) :: m else (k', v') :: GoMap.set m k v

/-- The lookup `v, ok := m[k]`. -/
def GoMap.get : GoMap → GoString → Option Value
  | [], _ => none
  | (k', v') :: m, k => if k' = k then some v' else GoMap.get m k

/-- The keys of the map. -/
def GoMap.keys (m : GoMap) : List GoString := m.map Prod.fst

/-- Go `len(m)`: the number of entries. -/
def GoMap.len (m : GoMap) : Nat := m.length

/-! ## The result envelope -/

/-- The struct `QueryResult` of `app.go`. -/
structure QueryResult where
  Result : List GoMap
  Columns : List GoString
  Ms : Int
deriving DecidableEq, Repr

/-! ## The environment: `database/sql` -/

/-- A cursor `*sql.Rows`, by what its methods return: `Columns()`, then for each row that
`Next()` reaches what `Scan` delivers for the destinations of the caller (`α`), and `Err()`
once `Next()` has returned false. -/
structure Rows (α : Type) where
  columns : Except GoError (List GoString)
  scans : List (Except GoError α)
  err : Option GoError

/-- An established connection to the server, by what running a statement on it gives: the
diagnostic of the server, or a cursor. -/
structure Conn (α : Type) where
  exec : GoString → Except GoString (Rows α)

/-- A handle `*sql.DB`. `sql.Open` connects to nothing: the connection is established when the
handle is first used, and `connect` is what that attempt gives, the diagnostic of the backend
(host unreachable, authentication rejected, database not found) or the connection. -/
structure DB (α : Type) where
  connect : Except GoString (Conn α)

/-- The world of one call: what `sql.Open(driverName, dataSourceName)` returns, and the value
of `time.Since(start)` in nanoseconds when the envelope is built. -/
structure World (α : Type) where
  sqlOpen : GoString → GoString → Except GoError (DB α)
  since : Int

/-- The calls on the environment that a trace records: `sql.Open`, the attempt to establish
the connection, the statement sent to the server, `rows.Close`, `db.Close`, `println`. -/
inductive Event where
  | sqlOpen (driverName dataSourceName : GoString)
  | connect
  | exec (stmt : GoString)
  | rowsClose
  | dbClose
  | println (text : GoString)
deriving DecidableEq, Repr

/-- The call `db.Query(stmt)` on a handle fresh from `sql.Open`: the connection is established
first, and a failure of that step is returned as a connection error; the statement is then run
on the connection, and its failure is returned as a statement error. -/
def DB.query {α : Type} (db : DB α) (stmt : GoString) : Except GoError (Rows α) :=
  match db.connect with
  | .error msg => .error ⟨.connection, msg⟩
  | .ok conn =>
    match conn.exec stmt with
    | .error msg => .error ⟨.statement, msg⟩
    | .ok rows => .ok rows

/-- What the call `db.Query(stmt)` does to the environment: it tries to establish the
connection, and sends the statement only when the connection is there. -/
def DB.queryCalls {α : Type} (db : DB α) (stmt : GoString) : List Event :=
  match db.connect with
  | .error _ => [.connect]
  | .ok _ => [.connect, .exec stmt]

/-- A Go call: its result and the trace of environment calls it made, oldest first. -/
abbrev Call (β : Type) := β × List Event

/-- The environment call `ev` happens, then `body` runs. -/
def emit {β : Type} (ev : Event) (body : Call β) : Call β := (body.1, ev :: body.2)

/-- The environment calls `evs` happen in order, then `body` runs. -/
def emitAll {β : Type} (evs : List Event) (body : Call β) : Call β := (body.1, evs ++ body.2)

/-- The statement `defer ev` followed by `body`: `ev` runs when `body` returns, on every
return path. -/
def withDefer {β : Type} (ev : Event) (body : Call β) : Call β := (body.1, body.2 ++ [ev])

/-- The error of `rows.Scan` when the row has `ncols` columns and the call `ndest`
destinations: `sql: expected %d destination arguments in Scan, not %d`. -/
def scanArityError (ncols ndest : Nat) : GoError :=
  ⟨.other, GoString.lit ("sql: expected " ++ toString ncols ++
    " destination arguments in Scan, not " ++ toString ndest)⟩

/-- The call `rows.Scan(valuePtrs...)` with `n` destinations of type `*interface{}` on the
current row: a decoding error of the row is returned as it is, a row that has not `n` cells
is an error, otherwise the `n` destinations receive the cells. -/
def rowsScan (n : Nat) (row : Except GoError (List Value)) : Except GoError (List Value) :=
  match row with
  | .error err => .error err
  | .ok cells => if cells.length = n then .ok cells else .error (scanArityError cells.length n)

/-! ## `PostgresQuery` -/

/-- The connection string of `PostgresQuery`:
`fmt.Sprintf("host=%s user=%s password=%s dbname=%s sslmode=disable", ...)`. -/
def pgConnString (server user password database : GoString) : GoString :=
  GoString.lit "host=" ++ server ++ GoString.lit " user=" ++ user ++
    GoString.lit " password=" ++ password ++ GoString.lit " dbname=" ++ database ++
    GoString.lit " sslmode=disable"

/-- The value assigned to `rowMap[col]` for a scanned cell `val` (the body of the inner loop):
`nil` stays `nil`, a `[]byte` becomes `string(b)`, anything else is stored as it is. -/
def normalize (val : Value) : Value :=
  match val with
  | .nil => .nil
  | .bytes b => .string (stringOfBytes b)
  | v => v

/-- The inner loop `for i, col := range columns`, from index `i` on, `cols` being the columns
not yet visited: `rowMap[col] = normalize(values[i])`. -/
def rowLoop (values : List Value) : List GoString → Nat → GoMap → GoMap
  | [], _, rowMap => rowMap
  | col :: cols, i, rowMap =>
      rowLoop values cols (i + 1) (rowMap.set col (normalize (values.getD i Value.nil)))

/-- The row mapping of one scanned row: `rowMap := make(map[string]interface{})` followed by
the inner loop. -/
def buildRow (columns : List GoString) (values : List Value) : GoMap :=
  rowLoop values columns 0 []

/-- The loop `for rows.Next()` of `PostgresQuery` over the rows still to come, `result` being
the rows appended so far: a failing `Scan` returns its error at once. -/
def scanRows (columns : List GoString) :
    List (Except GoError (List Value)) → List GoMap → Except GoError (List GoMap)
  | [], result => .ok result
  | row :: rest, result =>
      match rowsScan columns.length row with
      | .error err => .error err
      | .ok values => scanRows columns rest (result ++ [buildRow columns values])

/-- The method `PostgresQuery` of `app.go`. -/
def PostgresQuery (w : World (List Value)) (server user password database query : GoString) :
    Call (Except GoError QueryResult) :=
  let connString := pgConnString server user password database
  emit (.sqlOpen (GoString.lit "postgres") connString) <|
    match w.sqlOpen (GoString.lit "postgres") connString with
    | .error err => (.error err, [])
    | .ok db =>
      withDefer .dbClose <|
        emitAll (db.queryCalls query) <|
          match db.query query with
          | .error err => (.error err, [])
          | .ok rows =>
            withDefer .rowsClose <|
              match rows.columns with
              | .error err => (.error err, [])
              | .ok columns =>
                match scanRows columns rows.scans [] with
                | .error err => (.error err, [])
                | .ok result =>
                  match rows.err with
                  | some err => (.error err, [])
                  | none => (.ok ⟨result, columns, Int.tdiv w.since 1000000⟩, [])

/-! ## `PostgresGetDatabases` -/

/-- The connection string of `PostgresGetDatabases`:
`fmt.Sprintf("host=%s user=%s password=%s dbname=postgres sslmode=disable", ...)`. -/
def pgAdminConnString (server user password : GoString) : GoString :=
  GoString.lit "host=" ++ server ++ GoString.lit " user=" ++ user ++
    GoString.lit " password=" ++ password ++ GoString.lit " dbname=postgres sslmode=disable"

/-- The statement of `PostgresGetDatabases`. -/
def listDatabasesStmt : GoString :=
  GoString.lit "SELECT datname FROM pg_database WHERE datistemplate = false ORDER BY datname"

/-- The loop `for rows.Next()` of `PostgresGetDatabases`: each row is scanned into one
`string` and appended; a failing `Scan` returns its error at once. -/
def scanNames : List (Except GoError GoString) → List GoString → Except GoError (List GoString)
  | [], databases => .ok databases
  | row :: rest, databases =>
      match row with
      | .error err => .error err
      | .ok dbName => scanNames rest (databases ++ [dbName])

/-- The method `PostgresGetDatabases` of `app.go`. -/
def PostgresGetDatabases (w : World GoString) (server user password : GoString) :
    Call (Except GoError (List GoString)) :=
  let connString := pgAdminConnString server user password
  emit (.sqlOpen (GoString.lit "postgres") connString) <|
    match w.sqlOpen (GoString.lit "postgres") connString with
    | .error err => (.error err, [])
    | .ok db =>
      withDefer .dbClose <|
        emitAll (db.queryCalls listDatabasesStmt) <|
          match db.query listDatabasesStmt with
          | .error err => (.error err, [])
          | .ok rows =>
            withDefer .rowsClose <|
              match scanNames rows.scans [] with
              | .error err => (.error err, [])
              | .ok databases =>
                match rows.err with
                | some err => (.error err, [])
                | none => (.ok databases, [])

/-! ## `MssqlQuery` -/

/-- The method `MssqlQuery` of `app.go`. Its helpers `getDBConnection` and `execQuery` are
defined outside `app.go` and are parameters here, each with the trace of what it does to the
environment; `H` is the type of the handle they exchange. -/
def MssqlQuery {H : Type}
    (getDBConnection : GoString → GoString → GoString → GoString → Call (Except GoError H))
    (execQuery : H → GoString → Call (Except GoError (List GoMap × List GoString)))
    (since : Int) (server user password database query : GoString) :
    Call (Except GoError QueryResult) :=
  let conn := getDBConnection server user password database
  match conn.1 with
  | .error err => (.error err, conn.2)
  | .ok db =>
    let exec := execQuery db query
    match exec.1 with
    | .error err => (.error err, conn.2 ++ exec.2)
    | .ok (result, columns) =>
      (.ok ⟨result, columns, Int.tdiv since 1000000⟩,
        conn.2 ++ exec.2 ++ [Event.println (GoString.lit "query executed!")])


/-! ## The driver `lib/pq`: reading the connection string

`app.go` imports the driver `github.com/lib/pq` and hands it the connection string it builds.
The driver reads a key-value connection string with its function `parseOpts` (`conn.go`),
which works on the runes of the string; the option `dbname` it finds there is the database of
the session. The reader is embedded here as the driver has it: keys end at a space or `=`,
spaces around `=` are skipped, a value runs to the next space unless it is quoted, and a
backslash takes the next rune as it is.
-/

/-- The lowest second byte that may follow the first byte `x` of a multi-byte encoding. -/
def utf8Lo (x : Nat) : Nat := if x = 0xE0 then 0xA0 else if x = 0xF0 then 0x90 else 0x80

/-- The highest second byte that may follow the first byte `x` of a multi-byte encoding. -/
def utf8Hi (x : Nat) : Nat := if x = 0xED then 0x9F else if x = 0xF4 then 0x8F else 0xBF

/-- The low six bits of the next byte of an encoding, when there is such a byte and it lies
between `lo` and `hi`. -/
def utf8Cont (lo hi : Nat) (b : Option UInt8) : Option Nat :=
  match b with
  | none => none
  | some b => if lo ≤ b.toNat ∧ b.toNat ≤ hi then some (b.toNat % 64) else none

/-- Go `utf8.DecodeRune` on the bytes `s`: the first rune and the number of bytes it takes;
an invalid or truncated encoding gives `U+FFFD` and one byte. -/
def utf8DecodeRune (s : List UInt8) : Nat × Nat :=
  match s with
  | [] => (0xFFFD, 0)
  | b0 :: rest =>
    if b0.toNat < 0x80 then (b0.toNat, 1)
    else if b0.toNat < 0xC2 ∨ 0xF4 < b0.toNat then (0xFFFD, 1)
    else
      match utf8Cont (utf8Lo b0.toNat) (utf8Hi b0.toNat) rest[0]? with
      | none => (0xFFFD, 1)
      | some c1 =>
        if b0.toNat < 0xE0 then ((b0.toNat % 32) * 64 + c1, 2)
        else
          match utf8Cont 0x80 0xBF rest[1]? with
          | none => (0xFFFD, 1)
          | some c2 =>
            if b0.toNat < 0xF0 then ((b0.toNat % 16) * 4096 + c1 * 64 + c2, 3)
            else
              match utf8Cont 0x80 0xBF rest[2]? with
              | none => (0xFFFD, 1)
              | some c3 => ((b0.toNat % 8) * 262144 + c1 * 4096 + c2 * 64 + c3, 4)

/-- The runes of the bytes `s`, decoded one after the other; `fuel` bounds the number of
runes, and the length of `s` is enough. -/
def runesLoop : Nat → List UInt8 → List Nat
  | 0, _ => []
  | fuel + 1, s =>
    match s with
    | [] => []
    | b :: rest =>
      (utf8DecodeRune (b :: rest)).1 ::
        runesLoop fuel ((b :: rest).drop (utf8DecodeRune (b :: rest)).2)

/-- Go conversion `[]rune(s)` of a string. -/
def GoString.runes (s : GoString) : List Nat := runesLoop s.bytes.length s.bytes

/-- The runes of a string literal of the driver. -/
def runesLit (s : String) : List Nat := s.toList.map Char.toNat

/-- Go `unicode.IsSpace`. -/
def pqIsSpace (r : Nat) : Bool :=
  (9 ≤ r && r ≤ 13) || r == 0x20 || r == 0x85 || r == 0xA0 || r == 0x1680 ||
    (0x2000 ≤ r && r ≤ 0x200A) || r == 0x2028 || r == 0x2029 || r == 0x202F ||
    r == 0x205F || r == 0x3000

/-- The method `SkipSpaces` of the scanner of `lib/pq`: the first rune that is no space and
the runes after it, or nothing when the input ends first. -/
def pqSkipSpaces : List Nat → Option (Nat × List Nat)
  | [] => none
  | r :: rest => if pqIsSpace r then pqSkipSpaces rest else some (r, rest)

/-- The key loop of `parseOpts`, from the current rune on: runes are added to the key up to
a space or `=`. Returns the key, and the rune that ended it with the runes after it, or
nothing when the input ended first. -/
def pqScanKey (key : List Nat) : List Nat → List Nat × Option (Nat × List Nat)
  | [] => (key, none)
  | r :: rest =>
    if pqIsSpace r || r == 61 then (key, some (r, rest)) else pqScanKey (key ++ [r]) rest

/-- The errors of `parseOpts`. -/
inductive PqParseError where
  | missingEquals (key : List Nat)
  | missingAfterBackslash
  | unterminatedQuote
deriving DecidableEq, Repr

/-- The loop of `parseOpts` for a value that does not start with a quote, from the current
rune on: runes are added to the value up to a space, which is consumed, or to the end of the
input; a backslash makes the next rune part of the value whatever it is. `escaped` holds
after a backslash. Returns the value and the runes not yet read. -/
def pqScanValue (val : List Nat) (escaped : Bool) :
    List Nat → Except PqParseError (List Nat × List Nat)
  | [] => if escaped then .error .missingAfterBackslash else .ok (val, [])
  | r :: rest =>
    if escaped then pqScanValue (val ++ [r]) false rest
    else if pqIsSpace r then .ok (val, rest)
    else if r == 92 then pqScanValue val true rest
    else pqScanValue (val ++ [r]) false rest

/-- The loop of `parseOpts` for a quoted value, after the opening quote: runes are added up
to the closing quote, a backslash making the next rune part of the value. Returns the value
and the runes after the closing quote. -/
def pqScanQuoted (val : List Nat) (escaped : Bool) :
    List Nat → Except PqParseError (List Nat × List Nat)
  | [] => .error .unterminatedQuote
  | r :: rest =>
    if escaped then pqScanQuoted (val ++ [r]) false rest
    else if r == 39 then .ok (val, rest)
    else if r == 92 then pqScanQuoted val true rest
    else pqScanQuoted (val ++ [r]) false rest

/-- The options read from a connection string: the Go map `values` of `lib/pq`, keys and
values as runes. -/
abbrev PqValues := List (List Nat × List Nat)

/-- The assignment `o[key] = val`. -/
def pqSet : PqValues → List Nat → List Nat → PqValues
  | [], key, val => [(key, val)]
  | (k, v) :: o, key, val => if k = key then (key, val) :: o else (k, v) :: pqSet o key val

/-- The lookup `o[key]`. -/
def pqGet : PqValues → List Nat → Option (List Nat)
  | [], _ => none
  | (k, v) :: o, key => if k = key then some v else pqGet o key

/-- The position after the `=` that must follow a key: `stop` is what ended the key. -/
def pqAfterEquals (stop : Option (Nat × List Nat)) : Option (List Nat) :=
  match stop with
  | none => none
  | some (r, rest) =>
    if r == 61 then some rest
    else
      match pqSkipSpaces rest with
      | none => none
      | some (r2, rest2) => if r2 == 61 then some rest2 else none

/-- The outer loop of `parseOpts` of `lib/pq` (`conn.go`) on the runes `s` not yet read, with
the options `o` read so far: spaces are skipped, a key is read up to `=`, spaces are skipped
again, and the value is read, quoted or not. Every round reads at least one rune: `fuel`
bounds the number of rounds, and the length of the input plus one is enough. -/
def pqParseLoop : Nat → List Nat → PqValues → Except PqParseError PqValues
  | 0, _, o => .ok o
  | fuel + 1, s, o =>
    match pqSkipSpaces s with
    | none => .ok o
    | some (r, rest) =>
      match pqAfterEquals (pqScanKey [] (r :: rest)).2 with
      | none => .error (.missingEquals (pqScanKey [] (r :: rest)).1)
      | some rest1 =>
        match pqSkipSpaces rest1 with
        | none => .ok (pqSet o (pqScanKey [] (r :: rest)).1 [])
        | some (r2, rest2) =>
          match (if r2 == 39 then pqScanQuoted [] false rest2
                 else pqScanValue [] false (r2 :: rest2)) with
          | .error e => .error e
          | .ok (val, rest3) => pqParseLoop fuel rest3 (pqSet o (pqScanKey [] (r :: rest)).1 val)

/-- The function `parseOpts` of `lib/pq` on a key-value connection string: the options the
string sets (the defaults of the driver and the environment, which the string overrides, are
left out). -/
def pqParseOpts (name : GoString) : Except PqParseError PqValues :=
  pqParseLoop (name.runes.length + 1) name.runes []

/-- The database that a key-value connection string names for `lib/pq`: the value of its
option `dbname`, if the string can be read and sets one. -/
def pqDatabase (name : GoString) : Option (List Nat) :=
  match pqParseOpts name with
  | .error _ => none
  | .ok o => pqGet o (runesLit "dbname")

/-- A connection parameter that the reader of `lib/pq` reads back as it is when it stands as
a value before a space: it is not empty, none of its runes is a space or a backslash, and it
does not start with a quote. -/
def pqPlain (s : GoString) : Bool :=
  match s.runes with
  | [] => false
  | r :: rs => r != 39 && (r :: rs).all (fun x => !pqIsSpace x && x != 92)

/-! ## The helpers of `MssqlQuery`, after the specification -/

/-- Modelled from the spec: the helper `getDBConnection`, which is defined outside `app.go`.
It is the Connector of section 4.1: it builds the backend specific connection descriptor from
(host, user, password, database), here by `descriptor`, and in a single attempt produces an
open, ready-to-query connection, or fails fast with the connection error of the backend (host
unreachable, authentication rejected, database not found); a handle whose connection cannot
be established is released before the error is returned (sections 2 and 5). -/
def specGetDBConnection {α : Type} (w : World α) (driverName : GoString)
    (descriptor : GoString → GoString → GoString → GoString → GoString)
    (server user password database : GoString) : Call (Except GoError (Conn α)) :=
  emit (.sqlOpen driverName (descriptor server user password database)) <|
    match w.sqlOpen driverName (descriptor server user password database) with
    | .error err => (.error err, [])
    | .ok db =>
      emit .connect <|
        match db.connect with
        | .error msg => (.error ⟨.connection, msg⟩, [.dbClose])
        | .ok conn => (.ok conn, [])

/-- Modelled from the spec: the helper `execQuery`, which is defined outside `app.go`. It is
the Executor of section 4.2 followed by the Row Normalizer of section 4.3, the pipeline being
structurally identical to the one of `PostgresQuery`: it executes the statement on the open
connection it is given, reads the column list, normalizes the rows one by one, checks the
terminal cursor error, and closes the cursor. The connection is torn down within the call and
released on every exit path (sections 2, 4.1 and 5); the body of `MssqlQuery` holding no close
of its own, the release is here, after the cursor is closed. -/
def specExecQuery (conn : Conn (List Value)) (query : GoString) :
    Call (Except GoError (List GoMap × List GoString)) :=
  withDefer .dbClose <|
    emit (.exec query) <|
      match conn.exec query with
      | .error msg => (.error ⟨.statement, msg⟩, [])
      | .ok rows =>
        withDefer .rowsClose <|
          match rows.columns with
          | .error err => (.error err, [])
          | .ok columns =>
            match scanRows columns rows.scans [] with
            | .error err => (.error err, [])
            | .ok result =>
              match rows.err with
              | some err => (.error err, [])
              | none => (.ok (result, columns), [])

/-! ## Concrete environments -/

/-- The cursor of `SELECT 1 AS a, NULL AS b`: columns `a`, `b` and the single row `(1, NULL)`. -/
def rowsOneNull : Rows (List Value) :=
  ⟨.ok [GoString.lit "a", GoString.lit "b"], [.ok [Value.int64 1, Value.nil]], none⟩

/-- A cursor with two columns named `x`: one row decodes, the next one fails to decode. -/
def rowsSecondFails : Rows (List Value) :=
  ⟨.ok [GoString.lit "x", GoString.lit "x"],
    [.ok [Value.int64 1, Value.int64 2], .error ⟨.other, GoString.lit "bad row"⟩], none⟩

/-- A cursor whose only row decodes and which reports a terminal error afterwards. -/
def rowsTerminalError : Rows (List Value) :=
  ⟨.ok [GoString.lit "a"], [.ok [Value.int64 1]],
    some ⟨.other, GoString.lit "connection reset"⟩⟩

/-- A handle whose connection is established and where every statement yields the cursor
`rows`. -/
def dbOf {α : Type} (rows : Rows α) : DB α := ⟨.ok ⟨fun _ => .ok rows⟩⟩

/-- A world where `sql.Open` gives the handle `dbOf rows`. -/
def worldOf {α : Type} (rows : Rows α) : World α := ⟨fun _ _ => .ok (dbOf rows), 2500000⟩

/-- A name cursor yielding `app` then `postgres`, without error. -/
def namesSorted : Rows GoString :=
  ⟨.ok [GoString.lit "datname"], [.ok (GoString.lit "app"), .ok (GoString.lit "postgres")], none⟩

/-- A name cursor whose only row scans and which reports a terminal error afterwards. -/
def namesTerminalError : Rows GoString :=
  ⟨.ok [GoString.lit "datname"], [.ok (GoString.lit "app")],
    some ⟨.other, GoString.lit "connection reset"⟩⟩

/-! ## Lemmas on maps -/

theorem GoMap.get_set (m : GoMap) (k x : GoString) (v : Value) :
    (m.set k v).get x = if k = x then some v else m.get x := by
  induction m with
  | nil => simp [GoMap.set, GoMap.get]
  | cons p m ih =>
    obtain ⟨k', v'⟩ := p
    by_cases h : k' = k
    · subst h
      by_cases hx : k' = x <;> simp [GoMap.set, GoMap.get, hx]
    · by_cases hx : k' = x
      · subst hx
        have : ¬ k = k' := fun e => h e.symm
        simp [GoMap.set, GoMap.get, h, this]
      · simp [GoMap.set, GoMap.get, h, hx, ih]

theorem GoMap.keys_set (m : GoMap) (k : GoString) (v : Value) :
    (m.set k v).keys = if k ∈ m.keys then m.keys else m.keys ++ [k] := by
  induction m with
  | nil => simp [GoMap.set, GoMap.keys]
  | cons p m ih =>
    obtain ⟨k', v'⟩ := p
    by_cases h : k' = k
    · subst h
      simp [GoMap.set, GoMap.keys]
    · have h2 : ¬ k = k' := fun e => h e.symm
      simp only [GoMap.keys] at ih
      by_cases hm : k ∈ List.map Prod.fst m
      · simp [GoMap.set, GoMap.keys, h, h2, hm, ih]
      · simp [GoMap.set, GoMap.keys, h, h2, hm, ih]

theorem GoMap.get_eq_none_of_not_mem_keys (m : GoMap) (x : GoString) (h : x ∉ m.keys) :
    m.get x = none := by
  induction m with
  | nil => rfl
  | cons p m ih =>
    obtain ⟨k', v'⟩ := p
    simp only [GoMap.keys, List.map_cons, List.mem_cons, not_or] at h
    have h1 : ¬ k' = x := fun e => h.1 e.symm
    simp only [GoMap.get, h1, if_false]
    exact ih h.2

theorem GoMap.keys_set_nodup (m : GoMap) (k : GoString) (v : Value) (h : m.keys.Nodup) :
    (m.set k v).keys.Nodup := by
  rw [GoMap.keys_set]
  split
  · exact h
  · rename_i hk
    exact List.Nodup.append h (List.nodup_singleton k) (by simpa using hk)

theorem GoMap.keys_set_toFinset (m : GoMap) (k : GoString) (v : Value) :
    (m.set k v).keys.toFinset = insert k m.keys.toFinset := by
  rw [GoMap.keys_set]
  split
  · rename_i hk
    ext x
    simp only [List.mem_toFinset, Finset.mem_insert]
    constructor
    · intro hx; exact Or.inr hx
    · rintro (rfl | hx)
      · exact hk
      · exact hx
  · ext x
    simp only [List.toFinset_append, List.toFinset_cons, List.toFinset_nil, Finset.mem_union,
      List.mem_toFinset, Finset.mem_insert, Finset.mem_singleton, insert_emptyc_eq]
    tauto

/-! ## Lemmas on the inner loop -/

theorem rowLoop_append (values : List Value) (a b : List GoString) (i : Nat) (m : GoMap) :
    rowLoop values (a ++ b) i m = rowLoop values b (i + a.length) (rowLoop values a i m) := by
  induction a generalizing i m with
  | nil => simp [rowLoop]
  | cons c a ih =>
    show rowLoop values (a ++ b) (i + 1) _ = rowLoop values b (i + (a.length + 1)) _
    rw [ih]
    simp only [rowLoop]
    congr 1
    omega

theorem get_rowLoop_of_not_mem (values : List Value) (cols : List GoString) (i : Nat)
    (m : GoMap) (x : GoString) (h : x ∉ cols) :
    (rowLoop values cols i m).get x = m.get x := by
  induction cols generalizing i m with
  | nil => rfl
  | cons c cols ih =>
    simp only [List.mem_cons, not_or] at h
    have hc : ¬ c = x := fun e => h.1 e.symm
    simp only [rowLoop]
    rw [ih _ _ h.2, GoMap.get_set, if_neg hc]

theorem get_rowLoop_last (values : List Value) (cols : List GoString) (i : Nat) (m : GoMap)
    (j : Nat) (hj : j < cols.length)
    (hlast : ∀ k (hk : k < cols.length), j < k → cols[k] ≠ cols[j]) :
    (rowLoop values cols i m).get cols[j] = some (normalize (values.getD (i + j) Value.nil)) := by
  induction cols generalizing i m j with
  | nil => simp at hj
  | cons c cols ih =>
    cases j with
    | zero =>
      have hc : c ∉ cols := by
        intro hmem
        obtain ⟨k, hk, hk2⟩ := List.getElem_of_mem hmem
        have := hlast (k + 1) (by simp; omega) (by omega)
        simp at this
        exact this hk2
      simp only [rowLoop, List.getElem_cons_zero, Nat.add_zero]
      rw [get_rowLoop_of_not_mem _ _ _ _ _ hc, GoMap.get_set, if_pos rfl]
    | succ j =>
      simp only [List.length_cons, Nat.add_lt_add_iff_right] at hj
      simp only [rowLoop, List.getElem_cons_succ]
      have := ih (i + 1) (m.set c (normalize (values.getD i Value.nil))) j hj
        (fun k hk hjk => by
          have := hlast (k + 1) (by simp; omega) (by omega)
          simpa using this)
      rw [this]
      congr 3
      omega

theorem keys_rowLoop_nodup (values : List Value) (cols : List GoString) (i : Nat) (m : GoMap)
    (h : m.keys.Nodup) : (rowLoop values cols i m).keys.Nodup := by
  induction cols generalizing i m with
  | nil => exact h
  | cons c cols ih =>
    simp only [rowLoop]
    exact ih _ _ (GoMap.keys_set_nodup m c _ h)

theorem keys_rowLoop_toFinset (values : List Value) (cols : List GoString) (i : Nat)
    (m : GoMap) : (rowLoop values cols i m).keys.toFinset = m.keys.toFinset ∪ cols.toFinset := by
  induction cols generalizing i m with
  | nil => simp [rowLoop]
  | cons c cols ih =>
    simp only [rowLoop]
    rw [ih, GoMap.keys_set_toFinset]
    ext x
    simp only [Finset.mem_union, Finset.mem_insert, List.mem_toFinset, List.toFinset_cons]
    tauto

theorem len_buildRow (columns : List GoString) (values : List Value) :
    (buildRow columns values).len = columns.dedup.length := by
  have h1 := keys_rowLoop_nodup values columns 0 [] (by simp [GoMap.keys])
  have h2 := keys_rowLoop_toFinset values columns 0 []
  have h3 : (buildRow columns values).len = (buildRow columns values).keys.length := by
    simp [GoMap.len, GoMap.keys]
  rw [h3]
  unfold buildRow
  rw [← List.toFinset_card_of_nodup h1, h2]
  simp [GoMap.keys, List.card_toFinset]


theorem exists_last_index (cols : List GoString) (x : GoString) (hx : x ∈ cols) :
    ∃ i : Nat, cols[i]? = some x ∧ ∀ k : Nat, i < k → cols[k]? ≠ some x := by
  induction cols with
  | nil => simp at hx
  | cons c cols ih =>
    by_cases hmem : x ∈ cols
    · obtain ⟨i, hi, hlast⟩ := ih hmem
      refine ⟨i + 1, by simpa using hi, ?_⟩
      intro k hk
      cases k with
      | zero => omega
      | succ k => simpa using hlast k (by omega)
    · have hc : c = x := by
        rcases List.mem_cons.mp hx with h | h
        · exact h.symm
        · exact absurd h hmem
      refine ⟨0, by simp [hc], ?_⟩
      intro k hk
      cases k with
      | zero => omega
      | succ k =>
        intro h
        simp only [List.getElem?_cons_succ] at h
        exact hmem (List.getElem?_mem h)

theorem get_buildRow_last (columns : List GoString) (values : List Value) (i : Nat)
    (x : GoString) (hx : columns[i]? = some x) (hlast : ∀ k : Nat, i < k → columns[k]? ≠ some x) :
    (buildRow columns values).get x = some (normalize (values.getD i Value.nil)) := by
  obtain ⟨hi, hxi⟩ := List.getElem?_eq_some_iff.mp hx
  have h := get_rowLoop_last values columns 0 [] i hi (fun k hk hik => by
    intro e
    apply hlast k hik
    rw [List.getElem?_eq_getElem hk, e, hxi])
  rw [hxi, Nat.zero_add] at h
  exact h

theorem buildRow_split (columns : List GoString) (values : List Value) (n : Nat)
    (hn : n ≤ columns.length) :
    buildRow columns values =
      rowLoop values (columns.drop n) n (buildRow (columns.take n) values) := by
  unfold buildRow
  conv_lhs => rw [← List.take_append_drop n columns]
  rw [rowLoop_append]
  simp [List.length_take, Nat.min_eq_left hn]

theorem get_buildRow_take (columns : List GoString) (values : List Value) (i : Nat)
    (x : GoString) (hx : columns[i]? = some x) :
    (buildRow (columns.take (i + 1)) values).get x
      = some (normalize (values.getD i Value.nil)) := by
  apply get_buildRow_last
  · rw [List.getElem?_take]
    simp [hx]
  · intro k hk
    rw [List.getElem?_take]
    have : ¬ k < i + 1 := by omega
    simp [this]

theorem rowsScan_ok_length (n : Nat) (row : Except GoError (List Value)) (values : List Value)
    (h : rowsScan n row = .ok values) : row = .ok values ∧ values.length = n := by
  unfold rowsScan at h
  split at h
  · cases h
  · split at h
    · cases h
      exact ⟨rfl, by assumption⟩
    · cases h


theorem GoMap.mem_keys_of_get (m : GoMap) (x : GoString) (v : Value) (h : m.get x = some v) :
    x ∈ m.keys := by
  by_contra hx
  rw [GoMap.get_eq_none_of_not_mem_keys m x hx] at h
  cases h

theorem getD_of_getElem? (values : List Value) (i : Nat) (v : Value)
    (h : values[i]? = some v) : values.getD i Value.nil = v := by
  simp [List.getD_eq_getElem?_getD, h]

/-! ## Lemmas on the row loop -/

theorem scanRows_ok (columns : List GoString) (cells : List (List Value)) (acc : List GoMap)
    (h : ∀ r ∈ cells, r.length = columns.length) :
    scanRows columns (cells.map Except.ok) acc = .ok (acc ++ cells.map (buildRow columns)) := by
  induction cells generalizing acc with
  | nil => simp [scanRows]
  | cons r cells ih =>
    have hr : r.length = columns.length := h r (List.mem_cons_self _ _)
    simp only [List.map_cons, scanRows, rowsScan, hr, if_true]
    rw [ih _ (fun r' hr' => h r' (List.mem_cons_of_mem _ hr'))]
    simp

theorem scanRows_error (columns : List GoString) (pre post : List (Except GoError (List Value)))
    (row : Except GoError (List Value)) (acc : List GoMap) (err : GoError)
    (hpre : ∀ r ∈ pre, ∃ values, rowsScan columns.length r = .ok values)
    (hrow : rowsScan columns.length row = .error err) :
    scanRows columns (pre ++ row :: post) acc = .error err := by
  induction pre generalizing acc with
  | nil => simp [scanRows, hrow]
  | cons r pre ih =>
    obtain ⟨values, hv⟩ := hpre r (List.mem_cons_self _ _)
    simp only [List.cons_append, scanRows, hv]
    exact ih _ (fun r' hr' => hpre r' (List.mem_cons_of_mem _ hr'))

theorem scanRows_ok_inv (columns : List GoString) (scans : List (Except GoError (List Value)))
    (acc result : List GoMap) (h : scanRows columns scans acc = .ok result) :
    ∀ r ∈ scans, ∃ values, rowsScan columns.length r = .ok values := by
  induction scans generalizing acc with
  | nil => simp
  | cons r scans ih =>
    simp only [scanRows] at h
    split at h
    · cases h
    · rename_i values hv
      intro r' hr'
      rcases List.mem_cons.mp hr' with e | e
      · exact ⟨values, e ▸ hv⟩
      · exact ih _ h r' e

theorem scanRows_total (columns : List GoString) (scans : List (Except GoError (List Value)))
    (acc : List GoMap) (h : ∀ r ∈ scans, ∃ values, rowsScan columns.length r = .ok values) :
    ∃ result, scanRows columns scans acc = .ok result := by
  induction scans generalizing acc with
  | nil => exact ⟨acc, rfl⟩
  | cons r scans ih =>
    obtain ⟨values, hv⟩ := h r (List.mem_cons_self _ _)
    simp only [scanRows, hv]
    exact ih _ (fun r' hr' => h r' (List.mem_cons_of_mem _ hr'))

theorem PostgresQuery_result (w : World (List Value))
    (server user password database query : GoString) (db : DB (List Value))
    (rows : Rows (List Value)) (columns : List GoString)
    (hopen : w.sqlOpen (GoString.lit "postgres") (pgConnString server user password database)
      = .ok db)
    (hquery : db.query query = .ok rows) (hcols : rows.columns = .ok columns) :
    (PostgresQuery w server user password database query).1 =
      match scanRows columns rows.scans [] with
      | .error err => .error err
      | .ok result =>
        match rows.err with
        | some err => .error err
        | none => .ok ⟨result, columns, Int.tdiv w.since 1000000⟩ := by
  simp only [PostgresQuery, emit, emitAll, withDefer, hopen, hquery, hcols]
  cases scanRows columns rows.scans [] with
  | error e => rfl
  | ok result =>
    cases rows.err <;> rfl

/-! ## Lemmas on the runes of a string -/

theorem utf8Cont_isSome (lo hi : Nat) (l : List UInt8) (i : Nat) (c : Nat)
    (h : utf8Cont lo hi l[i]? = some c) : i < l.length := by
  by_contra hlt
  rw [List.getElem?_eq_none (by omega)] at h
  cases h

theorem utf8DecodeRune_size (b : UInt8) (l : List UInt8) :
    1 ≤ (utf8DecodeRune (b :: l)).2 ∧ (utf8DecodeRune (b :: l)).2 ≤ (b :: l).length := by
  unfold utf8DecodeRune
  simp only [List.length_cons]
  split_ifs
  · simp
  · simp
  · split
    · simp
    · rename_i c1 h1
      have := utf8Cont_isSome _ _ _ _ _ h1
      simp
      omega
  · split
    · simp
    · rename_i c1 h1
      have g1 := utf8Cont_isSome _ _ _ _ _ h1
      split
      · simp
      · rename_i c2 h2
        have g2 := utf8Cont_isSome _ _ _ _ _ h2
        simp
        omega
  · split
    · simp
    · rename_i c1 h1
      split
      · simp
      · rename_i c2 h2
        split
        · simp
        · rename_i c3 h3
          have g3 := utf8Cont_isSome _ _ _ _ _ h3
          simp
          omega

theorem utf8Cont_ascii (lo hi : Nat) (a : UInt8) (hlo : 0x80 ≤ lo) (ha : a.toNat < 0x80) :
    utf8Cont lo hi (some a) = none := by
  simp only [utf8Cont]
  rw [if_neg]
  omega

theorem utf8Lo_ge (x : Nat) : 0x80 ≤ utf8Lo x := by
  unfold utf8Lo
  split_ifs <;> omega

theorem utf8DecodeRune_append (b : UInt8) (l t : List UInt8)
    (ht : ∀ a ∈ t.head?, a.toNat < 0x80) :
    utf8DecodeRune ((b :: l) ++ t) = utf8DecodeRune (b :: l) := by
  rcases t with _ | ⟨a, t⟩
  · simp
  · have ha : a.toNat < 0x80 := ht a (by simp)
    have e1 := utf8Cont_ascii (utf8Lo b.toNat) (utf8Hi b.toNat) a (utf8Lo_ge _) ha
    have e2 := utf8Cont_ascii 0x80 0xBF a (Nat.le_refl _) ha
    have e0 : ∀ lo hi, utf8Cont lo hi none = none := fun _ _ => rfl
    rcases l with _ | ⟨b1, _ | ⟨b2, _ | ⟨b3, l⟩⟩⟩ <;>
      simp only [List.cons_append, List.nil_append, utf8DecodeRune, List.getElem?_cons_zero,
        List.getElem?_cons_succ, List.getElem?_nil, e0, e1, e2]

theorem runesLoop_nil (fuel : Nat) : runesLoop fuel [] = [] := by
  cases fuel <;> rfl

theorem runesLoop_cons (fuel : Nat) (b : UInt8) (l : List UInt8) :
    runesLoop (fuel + 1) (b :: l) =
      (utf8DecodeRune (b :: l)).1 ::
        runesLoop fuel ((b :: l).drop (utf8DecodeRune (b :: l)).2) := rfl

theorem runesLoop_fuel (fuel : Nat) :
    ∀ (l : List UInt8) (fuel2 : Nat), l.length ≤ fuel → l.length ≤ fuel2 →
      runesLoop fuel l = runesLoop fuel2 l := by
  induction fuel with
  | zero =>
    intro l fuel2 h _
    have : l = [] := List.length_eq_zero.mp (Nat.le_zero.mp h)
    subst this
    rw [runesLoop_nil, runesLoop_nil]
  | succ fuel ih =>
    intro l fuel2 h h2
    cases l with
    | nil => rw [runesLoop_nil, runesLoop_nil]
    | cons b l =>
      cases fuel2 with
      | zero => simp at h2
      | succ fuel2 =>
        rw [runesLoop_cons, runesLoop_cons]
        have hs := utf8DecodeRune_size b l
        have hlen : ((b :: l).drop (utf8DecodeRune (b :: l)).2).length ≤ l.length := by
          rw [List.length_drop]
          simp only [List.length_cons]
          omega
        simp only [List.length_cons] at h h2
        rw [ih _ fuel2 (by omega) (by omega)]

theorem runesLoop_append (fuel : Nat) :
    ∀ (l t : List UInt8), (∀ a ∈ t.head?, a.toNat < 0x80) → l.length ≤ fuel →
      runesLoop (fuel + t.length) (l ++ t) = runesLoop fuel l ++ runesLoop t.length t := by
  induction fuel with
  | zero =>
    intro l t _ h
    have : l = [] := List.length_eq_zero.mp (Nat.le_zero.mp h)
    subst this
    simp [runesLoop_nil]
  | succ fuel ih =>
    intro l t ht h
    cases l with
    | nil =>
      rw [runesLoop_nil, List.nil_append, List.nil_append]
      exact runesLoop_fuel _ t _ (by omega) (Nat.le_refl _)
    | cons b l =>
      have hs := utf8DecodeRune_size b l
      rw [show fuel + 1 + t.length = (fuel + t.length) + 1 by omega]
      rw [show (b :: l) ++ t = b :: (l ++ t) from rfl, runesLoop_cons, runesLoop_cons]
      rw [show b :: (l ++ t) = (b :: l) ++ t from rfl, utf8DecodeRune_append b l t ht]
      rw [List.drop_append_of_le_length hs.2]
      have hlen : ((b :: l).drop (utf8DecodeRune (b :: l)).2).length ≤ fuel := by
        rw [List.length_drop]
        simp only [List.length_cons] at h ⊢
        omega
      rw [ih _ t ht hlen]
      rfl

theorem runes_mk_append (l t : List UInt8) (ht : ∀ a ∈ t.head?, a.toNat < 0x80) :
    (⟨l ++ t⟩ : GoString).runes = (⟨l⟩ : GoString).runes ++ (⟨t⟩ : GoString).runes := by
  unfold GoString.runes
  simp only [List.length_append]
  exact runesLoop_append l.length l t ht (Nat.le_refl _)

/-! ## Lemmas on the connection string reader -/

theorem pqScanKey_key (K rest acc : List Nat)
    (hK : ∀ r ∈ K, pqIsSpace r = false ∧ r ≠ 61) :
    pqScanKey acc (K ++ 61 :: rest) = (acc ++ K, some (61, rest)) := by
  induction K generalizing acc with
  | nil => simp [pqScanKey]
  | cons r K ih =>
    obtain ⟨h1, h2⟩ := hK r (List.mem_cons_self _ _)
    have step : pqScanKey acc ((r :: K) ++ 61 :: rest)
        = pqScanKey (acc ++ [r]) (K ++ 61 :: rest) := by
      simp [pqScanKey, h1, h2]
    rw [step, ih _ (fun r' hr' => hK r' (List.mem_cons_of_mem _ hr'))]
    simp

theorem pqScanValue_space (V rest acc : List Nat)
    (hV : ∀ r ∈ V, pqIsSpace r = false ∧ r ≠ 92) :
    pqScanValue acc false (V ++ 32 :: rest) = .ok (acc ++ V, rest) := by
  induction V generalizing acc with
  | nil => simp [pqScanValue, pqIsSpace]
  | cons r V ih =>
    obtain ⟨h1, h2⟩ := hV r (List.mem_cons_self _ _)
    have step : pqScanValue acc false ((r :: V) ++ 32 :: rest)
        = pqScanValue (acc ++ [r]) false (V ++ 32 :: rest) := by
      simp [pqScanValue, h1, h2]
    rw [step, ih _ (fun r' hr' => hV r' (List.mem_cons_of_mem _ hr'))]
    simp

theorem pqScanValue_end (V acc : List Nat)
    (hV : ∀ r ∈ V, pqIsSpace r = false ∧ r ≠ 92) :
    pqScanValue acc false V = .ok (acc ++ V, []) := by
  induction V generalizing acc with
  | nil => simp [pqScanValue]
  | cons r V ih =>
    obtain ⟨h1, h2⟩ := hV r (List.mem_cons_self _ _)
    have step : pqScanValue acc false (r :: V) = pqScanValue (acc ++ [r]) false V := by
      simp [pqScanValue, h1, h2]
    rw [step, ih _ (fun r' hr' => hV r' (List.mem_cons_of_mem _ hr'))]
    simp

theorem pqParseLoop_succ (fuel : Nat) (s : List Nat) (o : PqValues) :
    pqParseLoop (fuel + 1) s o =
      match pqSkipSpaces s with
      | none => .ok o
      | some (r, rest) =>
        match pqAfterEquals (pqScanKey [] (r :: rest)).2 with
        | none => .error (.missingEquals (pqScanKey [] (r :: rest)).1)
        | some rest1 =>
          match pqSkipSpaces rest1 with
          | none => .ok (pqSet o (pqScanKey [] (r :: rest)).1 [])
          | some (r2, rest2) =>
            match (if r2 == 39 then pqScanQuoted [] false rest2
                   else pqScanValue [] false (r2 :: rest2)) with
            | .error e => .error e
            | .ok (val, rest3) =>
              pqParseLoop fuel rest3 (pqSet o (pqScanKey [] (r :: rest)).1 val) := rfl

/-- One round of the reader on `key=value ` followed by more input. -/
theorem pqParseLoop_round (fuel : Nat) (k0 v0 : Nat) (K0 V0 rest : List Nat) (o : PqValues)
    (hK : ∀ r ∈ k0 :: K0, pqIsSpace r = false ∧ r ≠ 61)
    (hV : ∀ r ∈ v0 :: V0, pqIsSpace r = false ∧ r ≠ 92) (hq : v0 ≠ 39) :
    pqParseLoop (fuel + 1) ((k0 :: K0) ++ 61 :: ((v0 :: V0) ++ 32 :: rest)) o =
      pqParseLoop fuel rest (pqSet o (k0 :: K0) (v0 :: V0)) := by
  have hk0 : pqIsSpace k0 = false := (hK k0 (List.mem_cons_self _ _)).1
  have hv0 : pqIsSpace v0 = false := (hV v0 (List.mem_cons_self _ _)).1
  have hkey := pqScanKey_key (k0 :: K0) ((v0 :: V0) ++ 32 :: rest) [] hK
  have hval := pqScanValue_space (v0 :: V0) rest [] hV
  simp only [List.cons_append, List.nil_append] at hkey hval ⊢
  rw [pqParseLoop_succ]
  simp only [pqSkipSpaces, hk0, hkey, pqAfterEquals, beq_self_eq_true, if_true, hv0,
    Bool.false_eq_true, if_false, beq_iff_eq, hq, hval]

/-- The last round of the reader, on `key=value` at the end of the input. -/
theorem pqParseLoop_last (fuel : Nat) (k0 v0 : Nat) (K0 V0 : List Nat) (o : PqValues)
    (hK : ∀ r ∈ k0 :: K0, pqIsSpace r = false ∧ r ≠ 61)
    (hV : ∀ r ∈ v0 :: V0, pqIsSpace r = false ∧ r ≠ 92) (hq : v0 ≠ 39) :
    pqParseLoop (fuel + 2) ((k0 :: K0) ++ 61 :: (v0 :: V0)) o =
      .ok (pqSet o (k0 :: K0) (v0 :: V0)) := by
  have hk0 : pqIsSpace k0 = false := (hK k0 (List.mem_cons_self _ _)).1
  have hv0 : pqIsSpace v0 = false := (hV v0 (List.mem_cons_self _ _)).1
  have hkey := pqScanKey_key (k0 :: K0) (v0 :: V0) [] hK
  have hval := pqScanValue_end (v0 :: V0) [] hV
  simp only [List.cons_append, List.nil_append] at hkey hval ⊢
  rw [pqParseLoop_succ]
  simp only [pqSkipSpaces, hk0, hkey, pqAfterEquals, beq_self_eq_true, if_true, hv0,
    Bool.false_eq_true, if_false, beq_iff_eq, hq, hval]
  rw [pqParseLoop_succ]
  simp only [pqSkipSpaces]

theorem pqPlain_runes (s : GoString) (h : pqPlain s = true) :
    ∃ v0 V0, s.runes = v0 :: V0 ∧ v0 ≠ 39 ∧
      ∀ r ∈ v0 :: V0, pqIsSpace r = false ∧ r ≠ 92 := by
  unfold pqPlain at h
  cases hr : s.runes with
  | nil => simp [hr] at h
  | cons v0 V0 =>
    rw [hr] at h
    simp only [Bool.and_eq_true, bne_iff_ne, ne_eq, List.all_eq_true, Bool.not_eq_true'] at h
    exact ⟨v0, V0, rfl, h.1, fun r hmem => h.2 r hmem⟩

theorem runesLoop_ascii_append (A t : List UInt8) (fuel : Nat)
    (hA : ∀ b ∈ A, b.toNat < 0x80) :
    runesLoop (A.length + fuel) (A ++ t) = A.map UInt8.toNat ++ runesLoop fuel t := by
  induction A with
  | nil => simp
  | cons b A ih =>
    have hb : b.toNat < 0x80 := hA b (List.mem_cons_self _ _)
    have hd : utf8DecodeRune (b :: (A ++ t)) = (b.toNat, 1) := by
      simp [utf8DecodeRune, hb]
    rw [show (b :: A).length + fuel = (A.length + fuel) + 1 by simp; omega]
    rw [show (b :: A) ++ t = b :: (A ++ t) from rfl, runesLoop_cons, hd]
    simp only [List.drop_succ_cons, List.drop_zero, List.map_cons, List.cons_append]
    rw [ih (fun b' hb' => hA b' (List.mem_cons_of_mem _ hb'))]

theorem runes_lit_append (A t : List UInt8) (hA : ∀ b ∈ A, b.toNat < 0x80) :
    (⟨A ++ t⟩ : GoString).runes = A.map UInt8.toNat ++ (⟨t⟩ : GoString).runes := by
  unfold GoString.runes
  simp only [List.length_append]
  exact runesLoop_ascii_append A t t.length hA

/-- The runes of the connection string of `PostgresGetDatabases`: the fixed keys and the
runes of the three parameters. -/
theorem pgAdminConnString_runes (s u p : GoString) :
    (pgAdminConnString s u p).runes =
      runesLit "host" ++ 61 :: (s.runes ++ 32 ::
        (runesLit "user" ++ 61 :: (u.runes ++ 32 ::
          (runesLit "password" ++ 61 :: (p.runes ++ 32 ::
            (runesLit "dbname" ++ 61 :: (runesLit "postgres" ++ 32 ::
              (runesLit "sslmode" ++ 61 :: runesLit "disable")))))))) := by
  have hbytes : pgAdminConnString s u p =
      ⟨(GoString.lit "host=").bytes ++ (s.bytes ++ ((GoString.lit " user=").bytes ++ (u.bytes ++
        ((GoString.lit " password=").bytes ++ (p.bytes ++
        (GoString.lit " dbname=postgres sslmode=disable").bytes)))))⟩ := by
    have hb : (pgAdminConnString s u p).bytes =
        (GoString.lit "host=").bytes ++ s.bytes ++ (GoString.lit " user=").bytes ++ u.bytes ++
          (GoString.lit " password=").bytes ++ p.bytes ++
          (GoString.lit " dbname=postgres sslmode=disable").bytes := rfl
    have hmk : pgAdminConnString s u p = ⟨(pgAdminConnString s u p).bytes⟩ := rfl
    rw [hmk, hb]
    simp only [List.append_assoc]
  have h1 : ∀ b ∈ (GoString.lit "host=").bytes, b.toNat < 0x80 := by decide
  have h2 : ∀ b ∈ (GoString.lit " user=").bytes, b.toNat < 0x80 := by decide
  have h3 : ∀ b ∈ (GoString.lit " password=").bytes, b.toNat < 0x80 := by decide
  have t2 : ∀ rest : List UInt8,
      ∀ a ∈ ((GoString.lit " user=").bytes ++ rest).head?, a.toNat < 0x80 := by
    intro rest a ha
    have : ((GoString.lit " user=").bytes ++ rest).head? = some 32 := rfl
    rw [this] at ha
    cases ha
    decide
  have t3 : ∀ rest : List UInt8,
      ∀ a ∈ ((GoString.lit " password=").bytes ++ rest).head?, a.toNat < 0x80 := by
    intro rest a ha
    have : ((GoString.lit " password=").bytes ++ rest).head? = some 32 := rfl
    rw [this] at ha
    cases ha
    decide
  have t4 : ∀ a ∈ (GoString.lit " dbname=postgres sslmode=disable").bytes.head?,
      a.toNat < 0x80 := by decide
  have e1 : (GoString.lit "host=").bytes.map UInt8.toNat = runesLit "host" ++ [61] := by decide
  have e2 : (GoString.lit " user=").bytes.map UInt8.toNat = 32 :: (runesLit "user" ++ [61]) := by
    decide
  have e3 : (GoString.lit " password=").bytes.map UInt8.toNat
      = 32 :: (runesLit "password" ++ [61]) := by decide
  have e4 : (⟨(GoString.lit " dbname=postgres sslmode=disable").bytes⟩ : GoString).runes
      = 32 :: (runesLit "dbname" ++ 61 :: (runesLit "postgres" ++ 32 ::
          (runesLit "sslmode" ++ 61 :: runesLit "disable"))) := by decide
  rw [hbytes, runes_lit_append _ _ h1, runes_mk_append s.bytes _ (t2 _),
    runes_lit_append _ _ h2, runes_mk_append u.bytes _ (t3 _),
    runes_lit_append _ _ h3, runes_mk_append p.bytes _ t4, e1, e2, e3, e4]
  simp only [List.append_assoc, List.cons_append, List.nil_append]

/-- For plain parameters, `lib/pq` reads the connection string of `PostgresGetDatabases` as
the database `postgres`. -/
theorem pqDatabase_pgAdminConnString (s u p : GoString) (hs : pqPlain s = true)
    (hu : pqPlain u = true) (hp : pqPlain p = true) :
    pqDatabase (pgAdminConnString s u p) = some (runesLit "postgres") := by
  obtain ⟨s0, S0, hS, hsq, hsv⟩ := pqPlain_runes s hs
  obtain ⟨u0, U0, hU, huq, huv⟩ := pqPlain_runes u hu
  obtain ⟨p0, P0, hP, hpq, hpv⟩ := pqPlain_runes p hp
  have hrunes := pgAdminConnString_runes s u p
  rw [hS, hU, hP] at hrunes
  have hk1 : ∀ r ∈ (104 :: [111, 115, 116] : List Nat), pqIsSpace r = false ∧ r ≠ 61 := by
    decide
  have hk2 : ∀ r ∈ (117 :: [115, 101, 114] : List Nat), pqIsSpace r = false ∧ r ≠ 61 := by
    decide
  have hk3 : ∀ r ∈ (112 :: [97, 115, 115, 119, 111, 114, 100] : List Nat),
      pqIsSpace r = false ∧ r ≠ 61 := by decide
  have hk4 : ∀ r ∈ (100 :: [98, 110, 97, 109, 101] : List Nat),
      pqIsSpace r = false ∧ r ≠ 61 := by decide
  have hv4 : ∀ r ∈ (112 :: [111, 115, 116, 103, 114, 101, 115] : List Nat),
      pqIsSpace r = false ∧ r ≠ 92 := by decide
  have hk5 : ∀ r ∈ (115 :: [115, 108, 109, 111, 100, 101] : List Nat),
      pqIsSpace r = false ∧ r ≠ 61 := by decide
  have hv5 : ∀ r ∈ (100 :: [105, 115, 97, 98, 108, 101] : List Nat),
      pqIsSpace r = false ∧ r ≠ 92 := by decide
  have l1 : runesLit "host" = 104 :: [111, 115, 116] := by decide
  have l2 : runesLit "user" = 117 :: [115, 101, 114] := by decide
  have l3 : runesLit "password" = 112 :: [97, 115, 115, 119, 111, 114, 100] := by decide
  have l4 : runesLit "dbname" = 100 :: [98, 110, 97, 109, 101] := by decide
  have l5 : runesLit "postgres" = 112 :: [111, 115, 116, 103, 114, 101, 115] := by decide
  have l6 : runesLit "sslmode" = 115 :: [115, 108, 109, 111, 100, 101] := by decide
  have l7 : runesLit "disable" = 100 :: [105, 115, 97, 98, 108, 101] := by decide
  rw [l1, l2, l3, l4, l5, l6, l7] at hrunes
  obtain ⟨f, hf⟩ : ∃ f, (pgAdminConnString s u p).runes.length + 1 = f + 6 := by
    refine ⟨(pgAdminConnString s u p).runes.length - 5, ?_⟩
    rw [hrunes]
    simp only [List.length_append, List.length_cons, List.length_nil]
    omega
  unfold pqDatabase pqParseOpts
  rw [hf, hrunes]
  rw [show f + 6 = (f + 5) + 1 from rfl, pqParseLoop_round _ _ _ _ _ _ _ hk1 hsv hsq]
  rw [show f + 5 = (f + 4) + 1 from rfl, pqParseLoop_round _ _ _ _ _ _ _ hk2 huv huq]
  rw [show f + 4 = (f + 3) + 1 from rfl, pqParseLoop_round _ _ _ _ _ _ _ hk3 hpv hpq]
  rw [show f + 3 = (f + 2) + 1 from rfl,
    pqParseLoop_round _ _ _ _ _ _ _ hk4 hv4 (by decide)]
  rw [pqParseLoop_last _ _ _ _ _ _ hk5 hv5 (by decide)]
  rw [l5]
  simp [pqSet, pqGet, l4]

/-! ## Row mappings: collision, null, binary, pass-through -/

/-- C1 (column-name collision): for a successfully scanned row and every name `x` of the
column list, there is a last index `i` with `columns[i] = x`, and the entry of `x` in the row
mapping is the normalized cell at that index `i`. -/
theorem column_collision_last_wins (columns : List GoString)
    (row : Except GoError (List Value)) (values : List Value)
    (hscan : rowsScan columns.length row = .ok values) (x : GoString) (hx : x ∈ columns) :
    ∃ i : Nat, i < values.length ∧ columns[i]? = some x ∧
      (∀ k : Nat, i < k → columns[k]? ≠ some x) ∧
      (buildRow columns values).get x = Option.map normalize values[i]? := by
  obtain ⟨i, hi, hlast⟩ := exists_last_index columns x hx
  obtain ⟨-, hlen⟩ := rowsScan_ok_length _ _ _ hscan
  have hic : i < columns.length := (List.getElem?_eq_some_iff.mp hi).1
  have hiv : i < values.length := by omega
  refine ⟨i, hiv, hi, hlast, ?_⟩
  rw [get_buildRow_last columns values i x hi hlast]
  simp [List.getD_eq_getElem?_getD, List.getElem?_eq_getElem hiv]

/-- Witness of C1: columns `x, y, x` and the row `(1, 2, 3)`; the entry of `x` is `3`, the
cell of the last column named `x`, and not `1`. -/
theorem column_collision_last_wins_witness :
    (∃ i : Nat, i < [Value.int64 1, Value.int64 2, Value.int64 3].length ∧
      [GoString.lit "x", GoString.lit "y", GoString.lit "x"][i]? = some (GoString.lit "x") ∧
      (∀ k : Nat, i < k →
        [GoString.lit "x", GoString.lit "y", GoString.lit "x"][k]? ≠ some (GoString.lit "x")) ∧
      (buildRow [GoString.lit "x", GoString.lit "y", GoString.lit "x"]
          [Value.int64 1, Value.int64 2, Value.int64 3]).get (GoString.lit "x")
        = Option.map normalize [Value.int64 1, Value.int64 2, Value.int64 3][i]?) ∧
    (buildRow [GoString.lit "x", GoString.lit "y", GoString.lit "x"]
        [Value.int64 1, Value.int64 2, Value.int64 3]).get (GoString.lit "x")
      = some (Value.int64 3) :=
  ⟨column_collision_last_wins [GoString.lit "x", GoString.lit "y", GoString.lit "x"]
      (.ok [Value.int64 1, Value.int64 2, Value.int64 3])
      [Value.int64 1, Value.int64 2, Value.int64 3] (by decide) (GoString.lit "x") (by decide),
    by decide⟩

/-- C3 (null normalization): when the cell at index `i` is the native null and the name `x`
of column `i` does not occur at a later index, the row mapping has the key `x` and its value
is `nil`: no other value, in particular neither the empty string nor zero. -/
theorem null_cell_is_null (columns : List GoString) (values : List Value) (i : Nat)
    (x : GoString) (hx : columns[i]? = some x) (hnull : values[i]? = some Value.nil)
    (hlast : ∀ k : Nat, i < k → columns[k]? ≠ some x) :
    x ∈ (buildRow columns values).keys ∧
      (buildRow columns values).get x = some Value.nil ∧
      (∀ v, (buildRow columns values).get x = some v → v = Value.nil) ∧
      (buildRow columns values).get x ≠ some (Value.string (GoString.lit "")) ∧
      (buildRow columns values).get x ≠ some (Value.int64 0) := by
  have h : (buildRow columns values).get x = some Value.nil := by
    rw [get_buildRow_last columns values i x hx hlast, getD_of_getElem? values i _ hnull]
    rfl
  refine ⟨GoMap.mem_keys_of_get _ _ _ h, h, ?_, ?_, ?_⟩
  · intro v hv
    rw [h] at hv
    cases hv
    rfl
  · rw [h]
    intro e
    cases e
  · rw [h]
    intro e
    cases e

/-- Witness of C3: the row `(1, NULL)` of columns `a`, `b`. -/
theorem null_cell_is_null_witness :
    GoString.lit "b" ∈ (buildRow [GoString.lit "a", GoString.lit "b"]
        [Value.int64 1, Value.nil]).keys ∧
      (buildRow [GoString.lit "a", GoString.lit "b"] [Value.int64 1, Value.nil]).get
        (GoString.lit "b") = some Value.nil :=
  have h := null_cell_is_null [GoString.lit "a", GoString.lit "b"] [Value.int64 1, Value.nil] 1
    (GoString.lit "b") (by decide) (by decide)
    (fun k hk => by
      have : [GoString.lit "a", GoString.lit "b"][k]? = none :=
        List.getElem?_eq_none (by simp; omega)
      rw [this]
      exact fun e => by cases e)
  ⟨h.1, h.2.1⟩

/-- C4 (binary normalization): a cell that is the byte payload `b` is stored as the text
`string(b)`, whose bytes are exactly `b`: this is the entry of its column right after the
iteration of index `i`, and in the finished row mapping unless a later column has the same
name. -/
theorem bytes_cell_is_text (columns : List GoString) (values : List Value) (i : Nat)
    (x : GoString) (b : List UInt8) (hx : columns[i]? = some x)
    (hcell : values[i]? = some (Value.bytes b)) :
    bytesOfString (stringOfBytes b) = b ∧
      normalize (Value.bytes b) = Value.string (stringOfBytes b) ∧
      buildRow columns values
        = rowLoop values (columns.drop (i + 1)) (i + 1) (buildRow (columns.take (i + 1)) values) ∧
      (buildRow (columns.take (i + 1)) values).get x = some (Value.string (stringOfBytes b)) ∧
      ((∀ k : Nat, i < k → columns[k]? ≠ some x) →
        (buildRow columns values).get x = some (Value.string (stringOfBytes b))) := by
  have hi : i < columns.length := (List.getElem?_eq_some_iff.mp hx).1
  refine ⟨rfl, rfl, buildRow_split columns values (i + 1) hi, ?_, ?_⟩
  · rw [get_buildRow_take columns values i x hx, getD_of_getElem? values i _ hcell]
    rfl
  · intro hlast
    rw [get_buildRow_last columns values i x hx hlast, getD_of_getElem? values i _ hcell]
    rfl

/-- Witness of C4: a payload that is not valid UTF-8 (`0xff 0x00 0xfe`) in column `p`. -/
theorem bytes_cell_is_text_witness :
    bytesOfString (stringOfBytes [255, 0, 254]) = [255, 0, 254] ∧
      (buildRow [GoString.lit "p"] [Value.bytes [255, 0, 254]]).get (GoString.lit "p")
        = some (Value.string (stringOfBytes [255, 0, 254])) :=
  have h := bytes_cell_is_text [GoString.lit "p"] [Value.bytes [255, 0, 254]] 0
    (GoString.lit "p") [255, 0, 254] (by decide) (by decide)
  ⟨h.1, h.2.2.2.2 (fun k hk => by
    have : [GoString.lit "p"][k]? = none := List.getElem?_eq_none (by simp; omega)
    rw [this]
    exact fun e => by cases e)⟩

/-- C5 (pass-through): a cell `v` that is neither null nor a byte payload is stored unchanged:
`v` itself is the entry of its column right after the iteration of index `i`, and in the
finished row mapping unless a later column has the same name. -/
theorem other_cell_passes_through (columns : List GoString) (values : List Value) (i : Nat)
    (x : GoString) (v : Value) (hx : columns[i]? = some x) (hcell : values[i]? = some v)
    (hnil : v ≠ Value.nil) (hbytes : ∀ b, v ≠ Value.bytes b) :
    normalize v = v ∧
      buildRow columns values
        = rowLoop values (columns.drop (i + 1)) (i + 1) (buildRow (columns.take (i + 1)) values) ∧
      (buildRow (columns.take (i + 1)) values).get x = some v ∧
      ((∀ k : Nat, i < k → columns[k]? ≠ some x) → (buildRow columns values).get x = some v) := by
  have hi : i < columns.length := (List.getElem?_eq_some_iff.mp hx).1
  have hn : normalize v = v := by
    cases v with
    | nil => exact absurd rfl hnil
    | bytes b => exact absurd rfl (hbytes b)
    | _ => rfl
  refine ⟨hn, buildRow_split columns values (i + 1) hi, ?_, ?_⟩
  · rw [get_buildRow_take columns values i x hx, getD_of_getElem? values i _ hcell, hn]
  · intro hlast
    rw [get_buildRow_last columns values i x hx hlast, getD_of_getElem? values i _ hcell, hn]

/-- Witness of C5: the 64-bit integer `9007199254740993` (not representable as a float64) in
column `n`, followed by a text column. -/
theorem other_cell_passes_through_witness :
    normalize (Value.int64 9007199254740993) = Value.int64 9007199254740993 ∧
      (buildRow ([GoString.lit "n", GoString.lit "t"].take (0 + 1))
        [Value.int64 9007199254740993, Value.string (GoString.lit "x")]).get (GoString.lit "n")
        = some (Value.int64 9007199254740993) :=
  have h := other_cell_passes_through [GoString.lit "n", GoString.lit "t"]
    [Value.int64 9007199254740993, Value.string (GoString.lit "x")] 0 (GoString.lit "n")
    (Value.int64 9007199254740993) (by decide) (by decide) (by decide)
    (fun b e => by cases e)
  ⟨h.1, h.2.2.1⟩

/-! ## `PostgresQuery`: result shape and failures -/

/-- C2 (result shape): when the connection opens, the statement executes, the cursor gives
the column list `columns`, its rows all scan without error into the cell lists `cells` (each
with one cell per column) and it reports no terminal error, `PostgresQuery` returns a
`QueryResult` whose `Columns` is `columns` (same length, same order, duplicates kept), whose
`Result` has one mapping per cursor row, the `i`-th built from the `i`-th row, each mapping
having as many entries as there are distinct column names. -/
theorem PostgresQuery_result_shape (w : World (List Value))
    (server user password database query : GoString) (db : DB (List Value))
    (rows : Rows (List Value)) (columns : List GoString) (cells : List (List Value))
    (hopen : w.sqlOpen (GoString.lit "postgres") (pgConnString server user password database)
      = .ok db)
    (hquery : db.query query = .ok rows) (hcols : rows.columns = .ok columns)
    (hscans : rows.scans = cells.map Except.ok)
    (harity : ∀ r ∈ cells, rowsScan columns.length (.ok r) = .ok r)
    (herr : rows.err = none) :
    ∃ res : QueryResult,
      (PostgresQuery w server user password database query).1 = .ok res ∧
      res.Columns = columns ∧ res.Columns.length = columns.length ∧
      res.Result = cells.map (buildRow columns) ∧
      res.Result.length = cells.length ∧
      (∀ i : Nat, i < cells.length →
        res.Result[i]? = Option.map (buildRow columns) cells[i]?) ∧
      (∀ m ∈ res.Result, m.len = columns.dedup.length) := by
  have hlen : ∀ r ∈ cells, r.length = columns.length := fun r hr =>
    (rowsScan_ok_length _ _ _ (harity r hr)).2
  refine ⟨⟨cells.map (buildRow columns), columns, Int.tdiv w.since 1000000⟩, ?_, rfl, rfl, rfl,
    by simp, ?_, ?_⟩
  · rw [PostgresQuery_result w server user password database query db rows columns hopen
      hquery hcols, hscans, scanRows_ok columns cells [] hlen, herr]
    simp
  · intro i _
    simp
  · intro m hm
    obtain ⟨r, -, rfl⟩ := List.mem_map.mp hm
    exact len_buildRow columns r

/-- Witness of C2: `SELECT 1 AS a, NULL AS b` gives `columns = [a, b]` and the single row
mapping `a ↦ 1, b ↦ nil`. -/
theorem PostgresQuery_result_shape_witness :
    (∃ res : QueryResult,
      (PostgresQuery (worldOf rowsOneNull) (GoString.lit "localhost") (GoString.lit "u")
        (GoString.lit "p") (GoString.lit "d") (GoString.lit "SELECT 1 AS a, NULL AS b")).1
        = .ok res ∧
      res.Columns = [GoString.lit "a", GoString.lit "b"] ∧
      res.Columns.length = [GoString.lit "a", GoString.lit "b"].length ∧
      res.Result = [[Value.int64 1, Value.nil]].map
        (buildRow [GoString.lit "a", GoString.lit "b"]) ∧
      res.Result.length = [[Value.int64 1, Value.nil]].length ∧
      (∀ i : Nat, i < [[Value.int64 1, Value.nil]].length →
        res.Result[i]? = Option.map (buildRow [GoString.lit "a", GoString.lit "b"])
          [[Value.int64 1, Value.nil]][i]?) ∧
      (∀ m ∈ res.Result, m.len = [GoString.lit "a", GoString.lit "b"].dedup.length)) ∧
    (PostgresQuery (worldOf rowsOneNull) (GoString.lit "localhost") (GoString.lit "u")
        (GoString.lit "p") (GoString.lit "d") (GoString.lit "SELECT 1 AS a, NULL AS b")).1
      = .ok ⟨[[(GoString.lit "a", Value.int64 1), (GoString.lit "b", Value.nil)]],
          [GoString.lit "a", GoString.lit "b"], 2⟩ :=
  ⟨PostgresQuery_result_shape (worldOf rowsOneNull) (GoString.lit "localhost")
      (GoString.lit "u") (GoString.lit "p") (GoString.lit "d")
      (GoString.lit "SELECT 1 AS a, NULL AS b") (dbOf rowsOneNull) rowsOneNull
      [GoString.lit "a", GoString.lit "b"] [[Value.int64 1, Value.nil]] rfl rfl rfl rfl
      (by decide) rfl,
    by decide⟩

/-- C6 (no partial result): once the connection is open, the statement has executed and the
column list is read, (1) if the scan of a row fails with `err` after any number of rows that
scanned, the call returns no `QueryResult` and exactly `err`; (2) if every row scans and the
cursor reports the terminal error `err`, the call returns no `QueryResult` and exactly `err`;
(3) the call returns a `QueryResult` only when every row scanned and there is no terminal
error. -/
theorem PostgresQuery_all_or_nothing (w : World (List Value))
    (server user password database query : GoString) (db : DB (List Value))
    (rows : Rows (List Value)) (columns : List GoString)
    (hopen : w.sqlOpen (GoString.lit "postgres") (pgConnString server user password database)
      = .ok db)
    (hquery : db.query query = .ok rows) (hcols : rows.columns = .ok columns) :
    (∀ pre row post err, rows.scans = pre ++ row :: post →
        (∀ r ∈ pre, ∃ values, rowsScan columns.length r = .ok values) →
        rowsScan columns.length row = .error err →
        (PostgresQuery w server user password database query).1 = .error err) ∧
      (∀ err, (∀ r ∈ rows.scans, ∃ values, rowsScan columns.length r = .ok values) →
        rows.err = some err →
        (PostgresQuery w server user password database query).1 = .error err) ∧
      (∀ res, (PostgresQuery w server user password database query).1 = .ok res →
        (∀ r ∈ rows.scans, ∃ values, rowsScan columns.length r = .ok values) ∧
          rows.err = none) := by
  have hres := PostgresQuery_result w server user password database query db rows columns
    hopen hquery hcols
  refine ⟨?_, ?_, ?_⟩
  · intro pre row post err hs hpre hrow
    rw [hres, hs, scanRows_error columns pre post row [] err hpre hrow]
  · intro err hall herr
    obtain ⟨result, hr⟩ := scanRows_total columns rows.scans [] hall
    rw [hres, hr, herr]
  · intro res h
    rw [hres] at h
    split at h
    · cases h
    · rename_i result hr
      refine ⟨scanRows_ok_inv columns rows.scans [] result hr, ?_⟩
      split at h
      · cases h
      · assumption

/-- Witness of C6: the second row fails to decode after a first row was normalized; and a
cursor whose only row scans reports a terminal error. -/
theorem PostgresQuery_all_or_nothing_witness :
    (PostgresQuery (worldOf rowsSecondFails) (GoString.lit "h") (GoString.lit "u")
        (GoString.lit "p") (GoString.lit "d") (GoString.lit "q")).1
      = .error ⟨.other, GoString.lit "bad row"⟩ ∧
    (PostgresQuery (worldOf rowsTerminalError) (GoString.lit "h") (GoString.lit "u")
        (GoString.lit "p") (GoString.lit "d") (GoString.lit "q")).1
      = .error ⟨.other, GoString.lit "connection reset"⟩ :=
  ⟨(PostgresQuery_all_or_nothing (worldOf rowsSecondFails) (GoString.lit "h")
      (GoString.lit "u") (GoString.lit "p") (GoString.lit "d") (GoString.lit "q")
      (dbOf rowsSecondFails) rowsSecondFails [GoString.lit "x", GoString.lit "x"]
      rfl rfl rfl).1
      [.ok [Value.int64 1, Value.int64 2]] (.error ⟨.other, GoString.lit "bad row"⟩) []
      ⟨.other, GoString.lit "bad row"⟩ rfl
      (fun r hr => by
        rw [List.mem_singleton] at hr
        exact ⟨[Value.int64 1, Value.int64 2], by rw [hr]; rfl⟩) rfl,
    (PostgresQuery_all_or_nothing (worldOf rowsTerminalError) (GoString.lit "h")
      (GoString.lit "u") (GoString.lit "p") (GoString.lit "d") (GoString.lit "q")
      (dbOf rowsTerminalError) rowsTerminalError [GoString.lit "a"]
      rfl rfl rfl).2.1 ⟨.other, GoString.lit "connection reset"⟩
      (fun r hr => by
        have hr2 : r = .ok [Value.int64 1] := List.mem_singleton.mp hr
        exact ⟨[Value.int64 1], by rw [hr2]; rfl⟩) rfl⟩

/-! ## Release of the connection handle -/

/-- The trace of `PostgresQuery` once `sql.Open` gave a handle: what `db.Query` does, the
cursor (if there is one) closed, and the handle closed last, on every return path. -/
theorem PostgresQuery_trace (w : World (List Value))
    (server user password database query : GoString) (db : DB (List Value))
    (hopen : w.sqlOpen (GoString.lit "postgres") (pgConnString server user password database)
      = .ok db) :
    (PostgresQuery w server user password database query).2 =
      Event.sqlOpen (GoString.lit "postgres") (pgConnString server user password database)
        :: (db.queryCalls query
          ++ (match db.query query with
              | .error _ => []
              | .ok _ => [Event.rowsClose])
          ++ [Event.dbClose]) := by
  simp only [PostgresQuery, emit, emitAll, withDefer, hopen]
  cases db.query query with
  | error e => simp
  | ok rows =>
    simp only
    cases rows.columns with
    | error e => simp
    | ok columns =>
      simp only
      cases scanRows columns rows.scans [] with
      | error e => simp
      | ok result =>
        cases rows.err <;> simp

/-- The trace of `PostgresGetDatabases` once `sql.Open` gave a handle: what `db.Query` does,
the cursor (if there is one) closed, and the handle closed last, on every return path. -/
theorem PostgresGetDatabases_trace (w : World GoString)
    (server user password : GoString) (db : DB GoString)
    (hopen : w.sqlOpen (GoString.lit "postgres") (pgAdminConnString server user password)
      = .ok db) :
    (PostgresGetDatabases w server user password).2 =
      Event.sqlOpen (GoString.lit "postgres") (pgAdminConnString server user password)
        :: (db.queryCalls listDatabasesStmt
          ++ (match db.query listDatabasesStmt with
              | .error _ => []
              | .ok _ => [Event.rowsClose])
          ++ [Event.dbClose]) := by
  simp only [PostgresGetDatabases, emit, emitAll, withDefer, hopen]
  cases db.query listDatabasesStmt with
  | error e => simp
  | ok rows =>
    simp only
    cases scanNames rows.scans [] with
    | error e => simp
    | ok databases =>
      cases rows.err <;> simp

theorem getLast?_cons_append_snoc (a x : Event) (l1 l2 : List Event) :
    (a :: (l1 ++ (l2 ++ [x]))).getLast? = some x := by
  have h : a :: (l1 ++ (l2 ++ [x])) = (a :: (l1 ++ l2)) ++ [x] := by simp
  rw [h, List.getLast?_append]
  simp

theorem count_dbClose_queryCalls {α : Type} (db : DB α) (stmt : GoString) :
    (db.queryCalls stmt).count Event.dbClose = 0 := by
  unfold DB.queryCalls
  cases db.connect <;> simp

/-- The trace of `MssqlQuery` is the trace of `getDBConnection`, followed when a handle was
obtained by the trace of `execQuery` and, on success, by the `println`: the body of
`MssqlQuery` has no close of its own. -/
theorem MssqlQuery_trace {H : Type}
    (getDBConnection : GoString → GoString → GoString → GoString → Call (Except GoError H))
    (execQuery : H → GoString → Call (Except GoError (List GoMap × List GoString)))
    (since : Int) (server user password database query : GoString) :
    (MssqlQuery getDBConnection execQuery since server user password database query).2 =
      (getDBConnection server user password database).2 ++
        (match (getDBConnection server user password database).1 with
          | .error _ => []
          | .ok db =>
            (execQuery db query).2 ++
              (match (execQuery db query).1 with
                | .error _ => []
                | .ok _ => [Event.println (GoString.lit "query executed!")])) := by
  unfold MssqlQuery
  cases h : (getDBConnection server user password database).1 with
  | error e => simp [h]
  | ok db =>
    cases h2 : (execQuery db query).1 with
    | error e => simp [h, h2]
    | ok r => simp [h, h2]

/-- The trace of the helper `specExecQuery`: the statement, the cursor (if there is one)
closed, and the connection released last. -/
theorem specExecQuery_trace (conn : Conn (List Value)) (query : GoString) :
    (specExecQuery conn query).2 =
      Event.exec query ::
        ((match conn.exec query with
          | .error _ => []
          | .ok _ => [Event.rowsClose]) ++ [Event.dbClose]) := by
  simp only [specExecQuery, emit, withDefer]
  cases conn.exec query with
  | error e => simp
  | ok rows =>
    simp only
    cases rows.columns with
    | error e => simp
    | ok columns =>
      simp only
      cases scanRows columns rows.scans [] with
      | error e => simp
      | ok result =>
        cases rows.err <;> simp

/-- C7 (guaranteed release): whenever `sql.Open` gave a handle, the trace of the call starts
with that open and holds exactly one `db.Close`, after everything done with the handle, on
every return path: for `PostgresQuery` and `PostgresGetDatabases` the `db.Close` is the last
event of the call; for `MssqlQuery`, whose helpers are the ones modelled from the spec, only
the `println` of the success path comes after it. -/
theorem handle_released_on_every_path (w : World (List Value)) (wn : World GoString)
    (driverName : GoString) (descriptor : GoString → GoString → GoString → GoString → GoString)
    (since : Int) (server user password database query : GoString) :
    (∀ db, w.sqlOpen (GoString.lit "postgres") (pgConnString server user password database)
        = .ok db →
      (PostgresQuery w server user password database query).2.head? =
          some (Event.sqlOpen (GoString.lit "postgres")
            (pgConnString server user password database)) ∧
        (PostgresQuery w server user password database query).2.getLast?
          = some Event.dbClose ∧
        (PostgresQuery w server user password database query).2.count Event.dbClose = 1) ∧
    (∀ db, wn.sqlOpen (GoString.lit "postgres") (pgAdminConnString server user password)
        = .ok db →
      (PostgresGetDatabases wn server user password).2.head? =
          some (Event.sqlOpen (GoString.lit "postgres")
            (pgAdminConnString server user password)) ∧
        (PostgresGetDatabases wn server user password).2.getLast? = some Event.dbClose ∧
        (PostgresGetDatabases wn server user password).2.count Event.dbClose = 1) ∧
    (∀ db, w.sqlOpen driverName (descriptor server user password database) = .ok db →
      (MssqlQuery (specGetDBConnection w driverName descriptor) specExecQuery since
          server user password database query).2.head? =
          some (Event.sqlOpen driverName (descriptor server user password database)) ∧
        (MssqlQuery (specGetDBConnection w driverName descriptor) specExecQuery since
          server user password database query).2.count Event.dbClose = 1 ∧
        ∃ before after,
          (MssqlQuery (specGetDBConnection w driverName descriptor) specExecQuery since
            server user password database query).2 = before ++ Event.dbClose :: after ∧
          ∀ e ∈ after, e = Event.println (GoString.lit "query executed!")) := by
  refine ⟨?_, ?_, ?_⟩
  · intro db hopen
    rw [PostgresQuery_trace w server user password database query db hopen]
    refine ⟨rfl, by simp only [List.append_assoc]; exact getLast?_cons_append_snoc _ _ _ _, ?_⟩
    have hq := count_dbClose_queryCalls db query
    cases db.query query <;> simp [List.count_cons, hq]
  · intro db hopen
    rw [PostgresGetDatabases_trace wn server user password db hopen]
    refine ⟨rfl, by simp only [List.append_assoc]; exact getLast?_cons_append_snoc _ _ _ _, ?_⟩
    have hq := count_dbClose_queryCalls db listDatabasesStmt
    cases db.query listDatabasesStmt <;> simp [List.count_cons, hq]
  · intro db hopen
    rw [MssqlQuery_trace]
    cases hc : db.connect with
    | error msg =>
      have h1 : specGetDBConnection w driverName descriptor server user password database
          = (.error ⟨.connection, msg⟩,
              [Event.sqlOpen driverName (descriptor server user password database),
                Event.connect, Event.dbClose]) := by
        simp only [specGetDBConnection, emit, hopen, hc]
      rw [h1]
      refine ⟨rfl, by simp [List.count_cons], ?_⟩
      exact ⟨[Event.sqlOpen driverName (descriptor server user password database),
        Event.connect], [], by simp, by simp⟩
    | ok conn =>
      have h1 : specGetDBConnection w driverName descriptor server user password database
          = (.ok conn,
              [Event.sqlOpen driverName (descriptor server user password database),
                Event.connect]) := by
        simp only [specGetDBConnection, emit, hopen, hc]
      rw [h1]
      simp only
      rw [specExecQuery_trace]
      refine ⟨rfl, ?_, ?_⟩
      · cases conn.exec query <;> cases (specExecQuery conn query).1 <;>
          simp [List.count_cons]
      · cases hx : (specExecQuery conn query).1 with
        | error e =>
          refine ⟨[Event.sqlOpen driverName (descriptor server user password database),
            Event.connect, Event.exec query] ++
            (match conn.exec query with
              | .error _ => []
              | .ok _ => [Event.rowsClose]), [], by simp, by simp⟩
        | ok r =>
          refine ⟨[Event.sqlOpen driverName (descriptor server user password database),
            Event.connect, Event.exec query] ++
            (match conn.exec query with
              | .error _ => []
              | .ok _ => [Event.rowsClose]),
            [Event.println (GoString.lit "query executed!")], by simp, by simp⟩

/-- Witness of C7: a call whose second row fails to decode (`PostgresQuery`, `MssqlQuery`)
and a cursor with a terminal error (`PostgresGetDatabases`). -/
theorem handle_released_on_every_path_witness :
    (PostgresQuery (worldOf rowsSecondFails) (GoString.lit "h") (GoString.lit "u")
        (GoString.lit "p") (GoString.lit "d") (GoString.lit "q")).2.getLast?
      = some Event.dbClose ∧
    (PostgresGetDatabases (worldOf namesTerminalError) (GoString.lit "h") (GoString.lit "u")
        (GoString.lit "p")).2.getLast? = some Event.dbClose ∧
    (MssqlQuery (specGetDBConnection (worldOf rowsSecondFails) (GoString.lit "sqlserver")
        pgConnString) specExecQuery 0 (GoString.lit "h") (GoString.lit "u")
        (GoString.lit "p") (GoString.lit "d") (GoString.lit "q")).2.count Event.dbClose = 1 :=
  ⟨((handle_released_on_every_path (worldOf rowsSecondFails) (worldOf namesTerminalError)
      (GoString.lit "sqlserver") pgConnString 0 (GoString.lit "h") (GoString.lit "u")
      (GoString.lit "p") (GoString.lit "d") (GoString.lit "q")).1
      (dbOf rowsSecondFails) rfl).2.1,
    ((handle_released_on_every_path (worldOf rowsSecondFails) (worldOf namesTerminalError)
      (GoString.lit "sqlserver") pgConnString 0 (GoString.lit "h") (GoString.lit "u")
      (GoString.lit "p") (GoString.lit "d") (GoString.lit "q")).2.1
      (dbOf namesTerminalError) rfl).2.1,
    ((handle_released_on_every_path (worldOf rowsSecondFails) (worldOf namesTerminalError)
      (GoString.lit "sqlserver") pgConnString 0 (GoString.lit "h") (GoString.lit "u")
      (GoString.lit "p") (GoString.lit "d") (GoString.lit "q")).2.2
      (dbOf rowsSecondFails) rfl).2.1⟩

/-! ## Failures of the connection and of the statement -/

theorem scanNames_ok (names acc : List GoString) :
    scanNames (names.map Except.ok) acc = .ok (acc ++ names) := by
  induction names generalizing acc with
  | nil => simp [scanNames]
  | cons n names ih =>
    simp only [List.map_cons, scanNames]
    rw [ih]
    simp

theorem GoString.append_assoc (a b c : GoString) : a ++ b ++ c = a ++ (b ++ c) := by
  show (⟨(a.bytes ++ b.bytes) ++ c.bytes⟩ : GoString) = ⟨a.bytes ++ (b.bytes ++ c.bytes)⟩
  rw [List.append_assoc]

theorem pgAdminConnString_eq (server user password : GoString) :
    pgAdminConnString server user password =
      pgConnString server user password (GoString.lit "postgres") := by
  unfold pgAdminConnString pgConnString
  rw [GoString.append_assoc _ (GoString.lit "postgres") (GoString.lit " sslmode=disable"),
    GoString.append_assoc _ (GoString.lit " dbname=") _]
  rfl

/-- C9, as stated, fails, in two ways. (1) The only row of the cursor scans without error,
yet the cursor reports a terminal error and the call returns that error instead of the list
of names. (2) With an empty password the connection string is
`host=h user=u password= dbname=postgres sslmode=disable`, which the driver reads as the
password `dbname=postgres` and no database: the statement is not run against the fixed
database `postgres`. -/
theorem PostgresGetDatabases_not_for_every_input :
    (namesTerminalError.scans = [GoString.lit "app"].map Except.ok ∧
      (PostgresGetDatabases (worldOf namesTerminalError) (GoString.lit "h") (GoString.lit "u")
          (GoString.lit "p")).1 = .error ⟨.other, GoString.lit "connection reset"⟩ ∧
      (PostgresGetDatabases (worldOf namesTerminalError) (GoString.lit "h") (GoString.lit "u")
          (GoString.lit "p")).1 ≠ .ok [GoString.lit "app"]) ∧
    ((PostgresGetDatabases (worldOf namesSorted) (GoString.lit "h") (GoString.lit "u")
          (GoString.lit "")).2.head?
        = some (Event.sqlOpen (GoString.lit "postgres")
            (GoString.lit "host=h user=u password= dbname=postgres sslmode=disable")) ∧
      pqParseOpts (GoString.lit "host=h user=u password= dbname=postgres sslmode=disable")
        = .ok [(runesLit "host", runesLit "h"), (runesLit "user", runesLit "u"),
            (runesLit "password", runesLit "dbname=postgres"),
            (runesLit "sslmode", runesLit "disable")] ∧
      pqDatabase (GoString.lit "host=h user=u password= dbname=postgres sslmode=disable")
        = none) := by
  refine ⟨⟨by decide, by decide, by decide⟩, by decide, by decide, by decide⟩

/-- C9, amended: for every (host, user, password) the call opens the connection string that
`PostgresQuery` builds for the database `postgres`, and sends the fixed statement
`listDatabasesStmt` and no other; when host, user and password are plain (not empty, without whitespace
or backslash, not starting with a quote) the driver reads that connection string as the
database `postgres`; and when every row scans without error and the cursor reports no
terminal error, the returned list is exactly the sequence of names of the cursor, in cursor
order. -/
theorem PostgresGetDatabases_discovery (w : World GoString) (server user password : GoString) :
    listDatabasesStmt = GoString.lit
      "SELECT datname FROM pg_database WHERE datistemplate = false ORDER BY datname" ∧
    (∃ t, (PostgresGetDatabases w server user password).2 =
      Event.sqlOpen (GoString.lit "postgres")
        (pgConnString server user password (GoString.lit "postgres")) :: t ∧
      ∀ stmt, Event.exec stmt ∈ t → stmt = listDatabasesStmt) ∧
    (pqPlain server = true → pqPlain user = true → pqPlain password = true →
      pqDatabase (pgConnString server user password (GoString.lit "postgres"))
        = some (runesLit "postgres")) ∧
    (∀ db conn rows names,
      w.sqlOpen (GoString.lit "postgres")
        (pgConnString server user password (GoString.lit "postgres")) = .ok db →
      db.connect = .ok conn →
      conn.exec listDatabasesStmt = .ok rows →
      rows.scans = names.map Except.ok →
      rows.err = none →
      PostgresGetDatabases w server user password =
        (.ok names,
          [Event.sqlOpen (GoString.lit "postgres")
              (pgConnString server user password (GoString.lit "postgres")),
            Event.connect, Event.exec listDatabasesStmt, Event.rowsClose, Event.dbClose])) := by
  rw [← pgAdminConnString_eq]
  refine ⟨rfl, ?_, pqDatabase_pgAdminConnString server user password, ?_⟩
  · cases hopen : w.sqlOpen (GoString.lit "postgres") (pgAdminConnString server user password)
      with
    | error e =>
      refine ⟨[], ?_, by simp⟩
      simp only [PostgresGetDatabases, emit, hopen]
    | ok db =>
      refine ⟨db.queryCalls listDatabasesStmt
          ++ (match db.query listDatabasesStmt with
              | .error _ => []
              | .ok _ => [Event.rowsClose])
          ++ [Event.dbClose], ?_, ?_⟩
      · rw [PostgresGetDatabases_trace w server user password db hopen]
      · intro stmt
        unfold DB.queryCalls
        cases db.connect <;> cases db.query listDatabasesStmt <;> simp
  · intro db conn rows names hopen hc hx hscans herr
    simp only [PostgresGetDatabases, emit, emitAll, withDefer, hopen, DB.query, DB.queryCalls,
      hc, hx, hscans, scanNames_ok, herr]
    rfl

/-- Witness of C9 amended: the parameters `h`, `u`, `p` are plain and read as the database
`postgres`; the cursor yields `app`, `postgres`. -/
theorem PostgresGetDatabases_discovery_witness :
    pqDatabase (pgConnString (GoString.lit "h") (GoString.lit "u") (GoString.lit "p")
        (GoString.lit "postgres")) = some (runesLit "postgres") ∧
    PostgresGetDatabases (worldOf namesSorted) (GoString.lit "h") (GoString.lit "u")
        (GoString.lit "p") =
      (.ok [GoString.lit "app", GoString.lit "postgres"],
        [Event.sqlOpen (GoString.lit "postgres")
            (pgConnString (GoString.lit "h") (GoString.lit "u") (GoString.lit "p")
              (GoString.lit "postgres")),
          Event.connect, Event.exec listDatabasesStmt, Event.rowsClose, Event.dbClose]) :=
  ⟨(PostgresGetDatabases_discovery (worldOf namesSorted) (GoString.lit "h") (GoString.lit "u")
      (GoString.lit "p")).2.2.1 (by decide) (by decide) (by decide),
    (PostgresGetDatabases_discovery (worldOf namesSorted) (GoString.lit "h") (GoString.lit "u")
      (GoString.lit "p")).2.2.2 (dbOf namesSorted) ⟨fun _ => .ok namesSorted⟩ namesSorted
      [GoString.lit "app", GoString.lit "postgres"] rfl rfl rfl rfl rfl⟩

/-! ## The connection string -/

/-- C10 (connection-descriptor ambiguity): host `a user=b` with user `c`, and host `a` with
user `b user=c`, are distinct parameters that give the same connection string, in
`PostgresQuery` and in `PostgresGetDatabases`; so neither connection string is an injective
function of its parameters. -/
theorem connString_not_injective :
    (GoString.lit "a user=b", GoString.lit "c") ≠ (GoString.lit "a", GoString.lit "b user=c") ∧
    (∀ password database,
      pgConnString (GoString.lit "a user=b") (GoString.lit "c") password database =
        pgConnString (GoString.lit "a") (GoString.lit "b user=c") password database) ∧
    (∀ password,
      pgAdminConnString (GoString.lit "a user=b") (GoString.lit "c") password =
        pgAdminConnString (GoString.lit "a") (GoString.lit "b user=c") password) ∧
    ¬ Function.Injective
      (fun t : GoString × GoString × GoString × GoString =>
        pgConnString t.1 t.2.1 t.2.2.1 t.2.2.2) ∧
    ¬ Function.Injective
      (fun t : GoString × GoString × GoString => pgAdminConnString t.1 t.2.1 t.2.2) := by
  have hpre : GoString.lit "host=" ++ GoString.lit "a user=b" ++ GoString.lit " user=" ++
      GoString.lit "c" =
      GoString.lit "host=" ++ GoString.lit "a" ++ GoString.lit " user=" ++
        GoString.lit "b user=c" := by decide
  have h1 : ∀ password database,
      pgConnString (GoString.lit "a user=b") (GoString.lit "c") password database =
        pgConnString (GoString.lit "a") (GoString.lit "b user=c") password database := by
    intro password database
    unfold pgConnString
    rw [hpre]
  have h2 : ∀ password,
      pgAdminConnString (GoString.lit "a user=b") (GoString.lit "c") password =
        pgAdminConnString (GoString.lit "a") (GoString.lit "b user=c") password := by
    intro password
    unfold pgAdminConnString
    rw [hpre]
  have hne : GoString.lit "a user=b" ≠ GoString.lit "a" := by decide
  refine ⟨by decide, h1, h2, ?_, ?_⟩
  · intro hinj
    have heq : (GoString.lit "a user=b", GoString.lit "c", GoString.lit "p", GoString.lit "d")
        = (GoString.lit "a", GoString.lit "b user=c", GoString.lit "p", GoString.lit "d") :=
      hinj (h1 (GoString.lit "p") (GoString.lit "d"))
    exact hne (congrArg Prod.fst heq)
  · intro hinj
    have heq : (GoString.lit "a user=b", GoString.lit "c", GoString.lit "p")
        = (GoString.lit "a", GoString.lit "b user=c", GoString.lit "p") :=
      hinj (h2 (GoString.lit "p"))
    exact hne (congrArg Prod.fst heq)

end QuickQuery
